import Mathlib

/-!
Verification of the completion engine of `src/components/note-editor.tsx`:
three completion providers (date, tag, note), the shared bracket-consumption
rule inside their apply effects, and the paste-to-markdown-link transformer.

The document is modelled as a `List Char`; character offsets are `Nat`.
External collaborators (the chrono date parser, the note store's search and
upsert, the frontmatter stripper, the tag index, the date formatters and the
current clock time) are passed in as parameters, exactly at the interface the
source uses them.
-/

/-- A document text: the editor buffer as a list of characters. -/
abbrev Doc := List Char

/-- Model of `state.sliceDoc a b` / `doc.sliceString a b`: the characters of positions
`[a, b)`, clamped to the document like the JavaScript slice. -/
def sliceDoc (doc : Doc) (a b : Nat) : Doc :=
  (doc.drop a).take (b - a)

/-- JavaScript `\w`: ASCII letters, digits and underscore. -/
def isWordChar (c : Char) : Bool :=
  c.isAlphanum || c = '_'

/-- A character admitted by the class `[^\]|^|]` of the source regexes:
everything except `]`, `|` and `^` (the class lists `]`, `|`, `^`, `|`). -/
def noteRefChar (c : Char) : Bool :=
  !(c = ']' || c = '|' || c = '^')

/-- The note trigger regex `\[\[[^\]|^|]*` anchored at the cursor: a suffix
matches iff it is `[[` followed by a run of `noteRefChar`s. -/
def notePred (s : Doc) : Bool :=
  s.take 2 = "[[".data && (s.drop 2).all noteRefChar

/-- The bare-word alternative `\w*` anchored at the cursor. -/
def wordRunPred (s : Doc) : Bool :=
  s.all isWordChar

/-- The date trigger regex `(\[\[[^\]|^|]*|\w*)` anchored at the cursor. -/
def datePred (s : Doc) : Bool :=
  notePred s || wordRunPred s

/-- A character admitted by the tag class `[\w\-_\d/]`. -/
def tagChar (c : Char) : Bool :=
  isWordChar c || c = '-' || c = '_' || c = '/'

/-- The tag trigger regex `#[\w\-_\d/]*` anchored at the cursor. -/
def tagPred (s : Doc) : Bool :=
  match s with
  | [] => false
  | c :: rest => c = '#' && rest.all tagChar

/-- Start of the line containing `pos`: the position right after the last
newline strictly before `pos`. -/
def lineStart (doc : Doc) (pos : Nat) : Nat :=
  pos - ((doc.take pos).reverse.takeWhile (fun c => !(c = '\n'))).length

/-- Model of the `CompletionContext.matchBefore` search window start,
`Math.max(line.from, pos - 250)`. -/
def matchStart (doc : Doc) (pos : Nat) : Nat :=
  max (lineStart doc pos) (pos - 250)

/-- Model of `CompletionContext.matchBefore(expr)`: the leftmost position `i` in the
window `[matchStart, pos]` whose suffix `doc[i, pos)` matches the
end-anchored regex, returned together with the matched text; `none` when no
suffix matches. -/
def matchBefore (pred : Doc → Bool) (doc : Doc) (pos : Nat) : Option (Nat × Doc) :=
  ((List.range' (matchStart doc pos) (pos + 1 - matchStart doc pos)).find?
      (fun i => pred (sliceDoc doc i pos))).map
    (fun i => (i, sliceDoc doc i pos))

/-- The bracket-consumption rule shared by the three apply effects:
`hasClosingBrackets = view.state.sliceDoc(to, to + 2) === "]]"`, and the
replacement runs to `to + 2` when it holds, else to `to`. -/
def replaceEnd (doc : Doc) (t : Nat) : Nat :=
  if sliceDoc doc t (t + 2) = "]]".data then t + 2 else t

/-- One atomic editor transaction: the document after
`changes: (from, to, insert)` plus the new `selection.anchor`. -/
structure EditorTx where
  newDoc : Doc
  anchor : Nat
deriving DecidableEq, Repr

/-- The common dispatch of the three apply effects: replace
`[f, replaceEnd doc t)` with `ins` and put the cursor right after `ins`. -/
def linkApply (ins : Doc) (doc : Doc) (f t : Nat) : EditorTx :=
  { newDoc := doc.take f ++ ins ++ doc.drop (replaceEnd doc t)
    anchor := f + ins.length }

/-- A note of the store: `{id, rawBody, title?}`. -/
structure Note where
  id : Doc
  rawBody : Doc
  title : Option Doc
deriving DecidableEq, Repr

/-- What an apply effect does: the editor transaction it dispatches, plus the
note it upserts into the store, if any. -/
structure ApplyResult where
  tx : EditorTx
  upserted : Option Note
deriving DecidableEq, Repr

/-- An apply effect, as a function of the current clock time (`Date.now()` in
milliseconds), the document and the `from`/`to` offsets handed over by the
autocompletion framework. -/
abbrev ApplyFn := Nat → Doc → Nat → Nat → ApplyResult

/-- A completion option: label, optional secondary descriptive text (the
source uses the widget's `detail` field for the date option and `info` for
the note options; both are the single `detail?` of the data model), and an
optional custom apply effect (absent for tag options, which use the default
label insertion). -/
structure Completion where
  label : Doc
  detail : Option Doc
  apply : Option ApplyFn

/-- A completion result: anchor offset `from`, ordered options, and the
optional `filter` flag (`some false` disables client-side filtering; the tag
provider leaves it unset). -/
structure CompletionResult where
  resFrom : Nat
  options : List Completion
  filter : Option Bool

/-- Model of `String(n)` for a natural number. -/
def natStr (n : Nat) : Doc :=
  (Nat.repr n).data

/-- JavaScript `padStart(n, c)`. -/
def padStart (s : Doc) (n : Nat) (c : Char) : Doc :=
  List.replicate (n - s.length) c ++ s

/-- The calendar date triple the source reads off the parsed `Date`:
`getFullYear()`, `getMonth()` (0-based) and `getDate()`. -/
structure JsDate where
  fullYear : Nat
  monthIndex : Nat
  dayOfMonth : Nat
deriving DecidableEq, Repr

/-- The string `` `${year}-${month}-${day}` `` with the zero-padding of the source:
year to 4 digits, month (`getMonth() + 1`) and day to 2. -/
def dateStr (d : JsDate) : Doc :=
  padStart (natStr d.fullYear) 4 '0' ++ "-".data
    ++ padStart (natStr (d.monthIndex + 1)) 2 '0' ++ "-".data
    ++ padStart (natStr d.dayOfMonth) 2 '0'

/-- Model of `word.text.replace(/^\[\[/, "")`: strip one leading `[[`. -/
def stripLeadingBrackets (s : Doc) : Doc :=
  if s.take 2 = "[[".data then s.drop 2 else s

/-- The date option's apply effect: insert `[[YYYY-MM-DD]]` over the matched
span with bracket consumption, cursor after the inserted text. -/
def dateApplyEffect (ds : Doc) : ApplyFn :=
  fun _now doc f t =>
    { tx := linkApply ("[[".data ++ ds ++ "]]".data) doc f t
      upserted := none }

/-- The source's `dateCompletion`, with the external date parser and the two label
formatters (`formatDate`, `formatDateDistance`) passed in. -/
def dateCompletion (parse : Doc → Option JsDate) (fmtDate fmtDist : Doc → Doc)
    (doc : Doc) (pos : Nat) : Option CompletionResult :=
  match matchBefore datePred doc pos with
  | none => none
  | some (wfrom, wtext) =>
    let query := stripLeadingBrackets wtext
    if query = [] then none
    else
      match parse query with
      | none => none
      | some date =>
        let ds := dateStr date
        some { resFrom := wfrom
               options := [{ label := fmtDate ds
                             detail := some (fmtDist ds)
                             apply := some (dateApplyEffect ds) }]
               filter := some false }

/-- The completion source of `useTagCompletion`, with the tag index (the keys of
the `tagsAtom` map) passed in.  Anchor is `word.from + 1`; every known tag
becomes one label-only option; the `filter` flag is left unset. -/
def tagCompletion (tags : List Doc) (doc : Doc) (pos : Nat) : Option CompletionResult :=
  match matchBefore tagPred doc pos with
  | none => none
  | some (wfrom, _) =>
    some { resFrom := wfrom + 1
           options := tags.map (fun name => { label := name, detail := none, apply := none })
           filter := none }

/-- The text `` `[[${id}${note?.title ? `|${note.title}` : ""}]]` ``: the link text of
a note option; the `|title` part appears only for a truthy (present,
non-empty) title. -/
def noteLinkText (id : Doc) (note : Note) : Doc :=
  "[[".data ++ id
    ++ (match note.title with
        | some ttl => if ttl = [] then [] else "|".data ++ ttl
        | none => [])
    ++ "]]".data

/-- Apply effect of a listed note option: insert the note link over the
matched span with bracket consumption, cursor after. -/
def noteLinkApplyEffect (id : Doc) (note : Note) : ApplyFn :=
  fun _now doc f t =>
    { tx := linkApply (noteLinkText id note) doc f t
      upserted := none }

/-- One listed note option, built from a `(id, note)` search result:
label and info are the `content` of `parseFrontmatter(note.rawBody)`
(the stripper is the parameter `pfContent`). -/
def noteLinkOption (pfContent : Doc → Doc) (p : Doc × Note) : Completion :=
  let content := pfContent p.2.rawBody
  { label := content
    detail := some content
    apply := some (noteLinkApplyEffect p.1 p.2) }

/-- The body `"# <query>\n\n#inbox"` of a newly created note. -/
def newNoteBody (query : Doc) : Doc :=
  "# ".data ++ query ++ "\n\n#inbox".data

/-- Apply effect of the create-new-note option: build a note whose id is
`Date.now().toString()` and whose body seeds a heading and the inbox tag,
upsert it, and insert `[[id|query]]` with bracket consumption, cursor
after. -/
def createNoteApplyEffect (query : Doc) : ApplyFn :=
  fun now doc f t =>
    let note : Note := { id := natStr now, rawBody := newNoteBody query, title := none }
    { tx := linkApply ("[[".data ++ note.id ++ "|".data ++ query ++ "]]".data) doc f t
      upserted := some note }

/-- The synthetic `Create new note "<query>"` option. -/
def createNewNoteOption (query : Doc) : Completion :=
  { label := "Create new note \"".data ++ query ++ "\"".data
    detail := none
    apply := some (createNoteApplyEffect query) }

/-- The completion source of `useNoteCompletion`, with the store search
(`useSearchNotes`) and the frontmatter content stripper passed in.  The
create-new-note option is pushed after the listed options exactly when the
query is non-empty. -/
def noteCompletion (searchNotes : Doc → List (Doc × Note)) (pfContent : Doc → Doc)
    (doc : Doc) (pos : Nat) : Option CompletionResult :=
  match matchBefore notePred doc pos with
  | none => none
  | some (wfrom, wtext) =>
    let query := wtext.drop 2
    let searchResults := searchNotes query
    let options := (searchResults.take 5).map (noteLinkOption pfContent)
    let options := if query = [] then options else options ++ [createNewNoteOption query]
    some { resFrom := wfrom
           options := options
           filter := some false }

/-- Model of `/^https?:\/\//.test(clipboardText)`. -/
def isUrl (s : Doc) : Bool :=
  s.take 7 = "http://".data || s.take 8 = "https://".data

/-- Outcome of the paste DOM handler: the document afterwards, the new cursor
anchor when the handler dispatched a transaction, and whether
`event.preventDefault()` was called (suppressing the default insertion). -/
structure PasteResult where
  newDoc : Doc
  anchor : Option Nat
  prevented : Bool
deriving DecidableEq, Repr

/-- The paste handler of `useCodeMirror`: for a URL clipboard payload,
replace the selection `[f, t)` with `[selectedText](url)` (bare url when the
selection text is empty), cursor after, and prevent the default insertion;
otherwise do nothing and let the default paste proceed. -/
def pasteHandler (clipboardText : Doc) (doc : Doc) (f t : Nat) : PasteResult :=
  if isUrl clipboardText then
    let selectedText := sliceDoc doc f t
    let markdown :=
      if selectedText = [] then clipboardText
      else "[".data ++ selectedText ++ "](".data ++ clipboardText ++ ")".data
    { newDoc := doc.take f ++ markdown ++ doc.drop t
      anchor := some (f + markdown.length)
      prevented := true }
  else
    { newDoc := doc, anchor := none, prevented := false }

/-- Modelled from the spec (§4.4 trigger pattern): a suffix matches the note
trigger iff it is `[[` followed by a run of characters excluding only `]`
and `|`.  This is the spec's wording of the pattern, kept separate from
`notePred` (the source regex) to compare the two. -/
def specNoteRefChar (c : Char) : Bool :=
  !(c = ']' || c = '|')

/-- Modelled from the spec: the note trigger as the spec words it. -/
def specNotePred (s : Doc) : Bool :=
  s.take 2 = "[[".data && (s.drop 2).all specNoteRefChar

/-- Sanity check values for the embedding. -/
example : replaceEnd "ab]]cd".data 2 = 4 := by decide
example : replaceEnd "ab]xcd".data 2 = 2 := by decide
example : matchBefore notePred "[[a^".data 4 = none := by decide
example : matchBefore notePred "x [[ab".data 6 = some (2, "[[ab".data) := by decide
example : matchBefore tagPred "a #pr".data 5 = some (2, "#pr".data) := by decide
example : matchBefore datePred "a tmrw".data 6 = some (2, "tmrw".data) := by decide
example : pasteHandler "https://e.co".data "foo".data 0 3 =
    { newDoc := "[foo](https://e.co)".data, anchor := some 19, prevented := true } := by decide
example : pasteHandler "hello".data "foo".data 0 3 =
    { newDoc := "foo".data, anchor := none, prevented := false } := by decide

/-- What a successful `matchBefore` guarantees: the text is the document
suffix `[i, pos)`, it satisfies the pattern, and the match start is at or
before the cursor. -/
theorem matchBefore_eq_some {pred : Doc → Bool} {doc : Doc} {pos i : Nat} {t : Doc}
    (h : matchBefore pred doc pos = some (i, t)) :
    t = sliceDoc doc i pos ∧ pred t = true ∧ i ≤ pos := by
  simp only [matchBefore, Option.map_eq_some'] at h
  obtain ⟨j, hf, hj⟩ := h
  obtain ⟨hji, hjt⟩ := Prod.mk.injEq .. ▸ hj
  have hp := List.find?_some hf
  have hmem := List.mem_of_find?_eq_some hf
  rw [List.mem_range'] at hmem
  obtain ⟨k, hk, hjk⟩ := hmem
  subst hji
  refine ⟨hjt.symm, ?_, ?_⟩
  · rw [← hjt]; simpa using hp
  · omega

/-- A match whose text is non-empty starts strictly before the cursor. -/
theorem matchBefore_lt_of_ne_nil {pred : Doc → Bool} {doc : Doc} {pos i : Nat} {t : Doc}
    (h : matchBefore pred doc pos = some (i, t)) (hne : t ≠ []) : i < pos := by
  obtain ⟨ht, -, hle⟩ := matchBefore_eq_some h
  rcases Nat.lt_or_ge i pos with hlt | hge
  · exact hlt
  · exfalso
    apply hne
    rw [ht]
    unfold sliceDoc
    have : pos - i = 0 := by omega
    rw [this, List.take_zero]

/-- C1: the bracket-consumption rule shared by the date, note-link and
create-note apply effects yields replacement end `t + 2` exactly when the two
document characters right after `t` are `]]`, and `t` otherwise; it is a pure
function of the document text, and each of the three apply effects replaces
up to exactly that end. -/
theorem c1_bracket_consumption (doc : Doc) (t : Nat) :
    (replaceEnd doc t = t + 2 ↔ sliceDoc doc t (t + 2) = "]]".data)
    ∧ (replaceEnd doc t = t ∨ replaceEnd doc t = t + 2)
    ∧ (∀ ds f now, ((dateApplyEffect ds) now doc f t).tx.newDoc
        = doc.take f ++ ("[[".data ++ ds ++ "]]".data) ++ doc.drop (replaceEnd doc t))
    ∧ (∀ id note f now, ((noteLinkApplyEffect id note) now doc f t).tx.newDoc
        = doc.take f ++ noteLinkText id note ++ doc.drop (replaceEnd doc t))
    ∧ (∀ q f now, ((createNoteApplyEffect q) now doc f t).tx.newDoc
        = doc.take f ++ ("[[".data ++ natStr now ++ "|".data ++ q ++ "]]".data)
            ++ doc.drop (replaceEnd doc t)) := by
  refine ⟨?_, ?_, fun ds f now => rfl, fun id note f now => rfl, fun q f now => rfl⟩
  · unfold replaceEnd
    by_cases h : sliceDoc doc t (t + 2) = "]]".data
    · simp [h]
    · simp only [h, if_neg, if_false, iff_false]
      exact fun heq => h (absurd heq (by omega))
  · unfold replaceEnd
    by_cases h : sliceDoc doc t (t + 2) = "]]".data <;> simp [h]

/-- C3 counterexample: the claim says the note trigger excludes no character
other than `]` and `|` from the run after `[[`, but the source class
`[^\]|^|]` also excludes `^`: at document `[[a^` with the cursor at its end,
the provider's match is `none` while the spec-worded pattern matches. -/
theorem c3_counterexample :
    ¬ (matchBefore notePred "[[a^".data 4 = matchBefore specNotePred "[[a^".data 4) := by
  decide

/-- C3 (amended): the matched token of the note provider (and the bracketed
branch of the date trigger) is `[[` followed by a run of characters excluding
`]`, `|` and `^`; no character other than those three is excluded. -/
theorem c3_trigger_pattern :
    (∀ s : Doc, notePred s = true ↔
      (s.take 2 = "[[".data ∧ ∀ c ∈ s.drop 2, ¬(c = ']' ∨ c = '|' ∨ c = '^')))
    ∧ (∀ s : Doc, datePred s = true ↔
      ((s.take 2 = "[[".data ∧ ∀ c ∈ s.drop 2, ¬(c = ']' ∨ c = '|' ∨ c = '^'))
        ∨ ∀ c ∈ s, isWordChar c = true))
    ∧ (∀ doc pos i t, matchBefore notePred doc pos = some (i, t) →
        t.take 2 = "[[".data ∧ ∀ c ∈ t.drop 2, ¬(c = ']' ∨ c = '|' ∨ c = '^')) := by
  have hc : ∀ c : Char, noteRefChar c = true ↔ ¬(c = ']' ∨ c = '|' ∨ c = '^') := by
    intro c
    unfold noteRefChar
    simp only [Bool.not_eq_eq_eq_not, Bool.not_true, Bool.or_eq_false_iff,
      decide_eq_false_iff_not]
    tauto
  have hchar : ∀ s : Doc, notePred s = true ↔
      (s.take 2 = "[[".data ∧ ∀ c ∈ s.drop 2, ¬(c = ']' ∨ c = '|' ∨ c = '^')) := by
    intro s
    simp only [notePred, Bool.and_eq_true, decide_eq_true_eq, List.all_eq_true]
    constructor
    · rintro ⟨h1, h2⟩
      exact ⟨h1, fun c hcm => (hc c).mp (h2 c hcm)⟩
    · rintro ⟨h1, h2⟩
      exact ⟨h1, fun c hcm => (hc c).mpr (h2 c hcm)⟩
  refine ⟨hchar, ?_, ?_⟩
  · intro s
    simp only [datePred, Bool.or_eq_true]
    rw [hchar]
    constructor
    · rintro (h | h)
      · exact Or.inl h
      · exact Or.inr (by simpa [wordRunPred, List.all_eq_true] using h)
    · rintro (h | h)
      · exact Or.inl h
      · exact Or.inr (by simpa [wordRunPred, List.all_eq_true] using h)
  · intro doc pos i t hm
    exact (hchar t).mp (matchBefore_eq_some hm).2.1

/-- Witness for the amended C3 at a concrete match. -/
theorem c3_trigger_pattern_witness :
    "[[ab".data.take 2 = "[[".data
    ∧ ∀ c ∈ "[[ab".data.drop 2, ¬(c = ']' ∨ c = '|' ∨ c = '^') :=
  c3_trigger_pattern.2.2 "x [[ab".data 6 2 "[[ab".data (by decide)

/-- C2: the date provider yields no result when the matched text with a
leading `[[` stripped is empty or the external parser finds no date;
otherwise it yields exactly one option whose apply effect replaces
`[from, replaceEnd]` with zero-padded `[[YYYY-MM-DD]]` and puts the cursor
right after the inserted text. -/
theorem c2_date_provider (parse : Doc → Option JsDate) (fmtDate fmtDist : Doc → Doc)
    (doc : Doc) (pos i : Nat) (t : Doc)
    (hm : matchBefore datePred doc pos = some (i, t)) :
    (stripLeadingBrackets t = [] →
      dateCompletion parse fmtDate fmtDist doc pos = none)
    ∧ (parse (stripLeadingBrackets t) = none →
      dateCompletion parse fmtDate fmtDist doc pos = none)
    ∧ (∀ d, stripLeadingBrackets t ≠ [] → parse (stripLeadingBrackets t) = some d →
      dateCompletion parse fmtDate fmtDist doc pos =
        some { resFrom := i
               options := [{ label := fmtDate (dateStr d)
                             detail := some (fmtDist (dateStr d))
                             apply := some (dateApplyEffect (dateStr d)) }]
               filter := some false }
      ∧ ∀ now doc' f t', (dateApplyEffect (dateStr d)) now doc' f t' =
          { tx := { newDoc := doc'.take f ++ ("[[".data ++ dateStr d ++ "]]".data)
                      ++ doc'.drop (replaceEnd doc' t')
                    anchor := f + ("[[".data ++ dateStr d ++ "]]".data).length }
            upserted := none }) := by
  refine ⟨?_, ?_, ?_⟩
  · intro hq
    unfold dateCompletion
    rw [hm]
    simp [hq]
  · intro hp
    unfold dateCompletion
    rw [hm]
    by_cases hq : stripLeadingBrackets t = []
    · simp [hq]
    · simp [hq, hp]
  · intro d hq hp
    refine ⟨?_, fun now doc' f t' => rfl⟩
    unfold dateCompletion
    rw [hm]
    simp [hq, hp]

/-- Witness for C2 with a parser that always returns 2023-01-05, identity
formatters, and the bare word `tmrw` before the cursor. -/
theorem c2_date_provider_witness :
    dateCompletion (fun _ => some ⟨2023, 0, 5⟩) (fun s => s) (fun s => s) "a tmrw".data 6 =
      some { resFrom := 2
             options := [{ label := dateStr ⟨2023, 0, 5⟩
                           detail := some (dateStr ⟨2023, 0, 5⟩)
                           apply := some (dateApplyEffect (dateStr ⟨2023, 0, 5⟩)) }]
             filter := some false } :=
  ((c2_date_provider (fun _ => some ⟨2023, 0, 5⟩) (fun s => s) (fun s => s)
      "a tmrw".data 6 2 "tmrw".data (by decide)).2.2
    ⟨2023, 0, 5⟩ (by decide) rfl).1

/-- C4: whenever the tag trigger matches before the cursor, the tag provider
anchors right after the `#` (the `#` at the match start is never part of the
replaced span) and lists exactly one label-only option per tag of the index,
unfiltered. -/
theorem c4_tag_provider (tags : List Doc) (doc : Doc) (pos i : Nat) (t : Doc)
    (hm : matchBefore tagPred doc pos = some (i, t)) :
    tagCompletion tags doc pos =
      some { resFrom := i + 1
             options := tags.map (fun name => { label := name, detail := none, apply := none })
             filter := none }
    ∧ sliceDoc doc i (i + 1) = "#".data := by
  constructor
  · unfold tagCompletion
    rw [hm]
  · obtain ⟨ht, hp, -⟩ := matchBefore_eq_some hm
    cases htt : t with
    | nil => rw [htt] at hp; simp [tagPred] at hp
    | cons c rest =>
      rw [htt] at hp
      have hc : c = '#' := by
        simp only [tagPred, Bool.and_eq_true, decide_eq_true_eq] at hp
        exact hp.1
      rw [htt] at ht
      unfold sliceDoc at ht ⊢
      cases hd : doc.drop i with
      | nil => rw [hd] at ht; simp at ht
      | cons d l' =>
        rw [hd] at ht
        cases hpi : pos - i with
        | zero => rw [hpi] at ht; simp at ht
        | succ m =>
          rw [hpi] at ht
          simp only [List.take_succ_cons, List.cons.injEq] at ht
          have h1 : i + 1 - i = 1 := by omega
          rw [h1]
          show (d :: l').take 1 = ['#']
          simp only [List.take_succ_cons, List.take_zero, List.cons.injEq, and_true]
          rw [← ht.1]
          exact hc

/-- Witness for C4 at the concrete context `a #pr` with one known tag. -/
theorem c4_tag_provider_witness :
    tagCompletion ["pro".data] "a #pr".data 5 =
      some { resFrom := 3
             options := ["pro".data].map
               (fun name => { label := name, detail := none, apply := none })
             filter := none }
    ∧ sliceDoc "a #pr".data 2 3 = "#".data :=
  c4_tag_provider ["pro".data] "a #pr".data 5 2 "#pr".data (by decide)

/-- Reduction of the note provider on a successful trigger match. -/
theorem noteCompletion_eq_some {searchNotes : Doc → List (Doc × Note)}
    {pfContent : Doc → Doc} {doc : Doc} {pos i : Nat} {t : Doc}
    (hm : matchBefore notePred doc pos = some (i, t)) :
    noteCompletion searchNotes pfContent doc pos =
      some { resFrom := i
             options :=
               (if t.drop 2 = [] then
                  ((searchNotes (t.drop 2)).take 5).map (noteLinkOption pfContent)
                else ((searchNotes (t.drop 2)).take 5).map (noteLinkOption pfContent)
                  ++ [createNewNoteOption (t.drop 2)])
             filter := some false } := by
  unfold noteCompletion
  rw [hm]

/-- C5: on a successful trigger, the listed (non-synthetic) options of the
note provider are exactly the first 5 store search results in store order;
each label and secondary text is the frontmatter-stripped content of
`rawBody`, and each apply effect inserts `[[id]]` (no explicit title) or
`[[id|title]]` (non-empty title) over the bracket-consumed span, cursor
after.  A title that is absent or the empty string counts as "no explicit
title", matching the truthiness test of the source. -/
theorem c5_note_options (searchNotes : Doc → List (Doc × Note)) (pfContent : Doc → Doc)
    (doc : Doc) (pos i : Nat) (t : Doc)
    (hm : matchBefore notePred doc pos = some (i, t)) :
    (∃ r, noteCompletion searchNotes pfContent doc pos = some r
      ∧ r.options.take ((searchNotes (t.drop 2)).take 5).length
          = ((searchNotes (t.drop 2)).take 5).map (noteLinkOption pfContent))
    ∧ (∀ id note, noteLinkOption pfContent (id, note)
        = { label := pfContent note.rawBody
            detail := some (pfContent note.rawBody)
            apply := some (noteLinkApplyEffect id note) })
    ∧ (∀ id note, (note.title = none ∨ note.title = some []) →
        noteLinkText id note = "[[".data ++ id ++ "]]".data)
    ∧ (∀ id note ttl, note.title = some ttl → ttl ≠ [] →
        noteLinkText id note = "[[".data ++ id ++ "|".data ++ ttl ++ "]]".data)
    ∧ (∀ id note now doc' f t', noteLinkApplyEffect id note now doc' f t'
        = { tx := { newDoc := doc'.take f ++ noteLinkText id note
                      ++ doc'.drop (replaceEnd doc' t')
                    anchor := f + (noteLinkText id note).length }
            upserted := none }) := by
  refine ⟨?_, fun id note => rfl, ?_, ?_, fun id note now doc' f t' => rfl⟩
  · refine ⟨_, noteCompletion_eq_some hm, ?_⟩
    have hlen : (((searchNotes (t.drop 2)).take 5).map (noteLinkOption pfContent)).length
        = ((searchNotes (t.drop 2)).take 5).length := List.length_map _ _
    by_cases hq : t.drop 2 = []
    · rw [if_pos hq, ← hlen, List.take_length]
    · rw [if_neg hq]
      exact List.take_left' hlen
  · intro id note h
    rcases h with h | h <;> simp [noteLinkText, h]
  · intro id note ttl h hne
    simp [noteLinkText, h, hne]

/-- Witness for C5 at a concrete context and one-note store. -/
theorem c5_note_options_witness :
    (∃ r, noteCompletion
        (fun _ => [("7".data, { id := "7".data, rawBody := "hi".data, title := none })])
        (fun s => s) "x[[a".data 4 = some r
      ∧ r.options.take 1 = [noteLinkOption (fun s => s)
          ("7".data, { id := "7".data, rawBody := "hi".data, title := none })]) :=
  ((c5_note_options
      (fun _ => [("7".data, { id := "7".data, rawBody := "hi".data, title := none })])
      (fun s => s) "x[[a".data 4 1 "[[a".data (by decide)).1)

/-- C6: the synthetic create-note option is appended exactly when the query
is non-empty, last and unique; its label is `Create new note "<query>"`, and
its apply effect builds a note with id `Date.now().toString()` and body
`# <query>\n\n#inbox`, upserts it, and inserts `[[id|query]]` over the
bracket-consumed span, cursor after. -/
theorem c6_create_note (searchNotes : Doc → List (Doc × Note)) (pfContent : Doc → Doc)
    (doc : Doc) (pos i : Nat) (t : Doc)
    (hm : matchBefore notePred doc pos = some (i, t)) :
    (t.drop 2 = [] →
      noteCompletion searchNotes pfContent doc pos =
        some { resFrom := i
               options := ((searchNotes (t.drop 2)).take 5).map (noteLinkOption pfContent)
               filter := some false })
    ∧ (t.drop 2 ≠ [] →
      noteCompletion searchNotes pfContent doc pos =
        some { resFrom := i
               options := ((searchNotes (t.drop 2)).take 5).map (noteLinkOption pfContent)
                 ++ [createNewNoteOption (t.drop 2)]
               filter := some false })
    ∧ ((createNewNoteOption (t.drop 2)).label
        = "Create new note \"".data ++ t.drop 2 ++ "\"".data)
    ∧ (∀ now doc' f t', createNoteApplyEffect (t.drop 2) now doc' f t'
        = { tx := { newDoc := doc'.take f
                      ++ ("[[".data ++ natStr now ++ "|".data ++ t.drop 2 ++ "]]".data)
                      ++ doc'.drop (replaceEnd doc' t')
                    anchor := f + ("[[".data ++ natStr now ++ "|".data ++ t.drop 2
                      ++ "]]".data).length }
            upserted := some { id := natStr now
                               rawBody := "# ".data ++ t.drop 2 ++ "\n\n#inbox".data
                               title := none } }) := by
  refine ⟨?_, ?_, rfl, fun now doc' f t' => rfl⟩
  · intro hq
    rw [noteCompletion_eq_some hm, if_pos hq]
  · intro hq
    rw [noteCompletion_eq_some hm, if_neg hq]

/-- Witness for C6 on a non-empty query with an empty store. -/
theorem c6_create_note_witness :
    noteCompletion (fun _ => []) (fun s => s) "x[[a".data 4 =
      some { resFrom := 1
             options := [createNewNoteOption "a".data]
             filter := some false } :=
  (c6_create_note (fun _ => []) (fun s => s) "x[[a".data 4 1 "[[a".data
      (by decide)).2.1 (by decide)

/-- C10: when the matched token is exactly `[[` (empty query) the note
provider still returns a result anchored at the `[[`, listing up to 5
results of the empty-string store search and no create-note option, while
the date provider returns no result whenever its own query is empty. -/
theorem c10_empty_query (searchNotes : Doc → List (Doc × Note)) (pfContent : Doc → Doc)
    (parse : Doc → Option JsDate) (fmtDate fmtDist : Doc → Doc)
    (doc : Doc) (pos i : Nat)
    (hm : matchBefore notePred doc pos = some (i, "[[".data)) :
    noteCompletion searchNotes pfContent doc pos =
      some { resFrom := i
             options := ((searchNotes []).take 5).map (noteLinkOption pfContent)
             filter := some false }
    ∧ (∀ j u, matchBefore datePred doc pos = some (j, u) →
        stripLeadingBrackets u = [] →
        dateCompletion parse fmtDate fmtDist doc pos = none) := by
  constructor
  · have h := @noteCompletion_eq_some searchNotes pfContent doc pos i "[[".data hm
    rw [h]
    have hd : ("[[".data : Doc).drop 2 = ([] : Doc) := by decide
    rw [hd]
    simp
  · intro j u hmd hq
    unfold dateCompletion
    rw [hmd]
    simp [hq]

/-- Witness for C10 at document `x[[` with the cursor at its end. -/
theorem c10_empty_query_witness :
    noteCompletion (fun _ => []) (fun s => s) "x[[".data 3 =
      some { resFrom := 1
             options := (([] : List (Doc × Note)).take 5).map (noteLinkOption (fun s => s))
             filter := some false } :=
  (c10_empty_query (fun _ => []) (fun s => s) (fun _ => none) (fun s => s) (fun s => s)
      "x[[".data 3 1 (by decide)).1

/-- C7: a paste whose plain-text payload starts with `http://` or `https://`
replaces the selection with `[selectedText](url)` (bare url when the
selection text is empty), puts the cursor at the end of the inserted text and
suppresses the default insertion; a non-URL payload leaves the document
untouched. -/
theorem c7_paste_transformer (clip doc : Doc) (f t : Nat) :
    (isUrl clip = true → sliceDoc doc f t ≠ [] →
      pasteHandler clip doc f t =
        { newDoc := doc.take f
            ++ ("[".data ++ sliceDoc doc f t ++ "](".data ++ clip ++ ")".data)
            ++ doc.drop t
          anchor := some (f + ("[".data ++ sliceDoc doc f t ++ "](".data ++ clip
            ++ ")".data).length)
          prevented := true })
    ∧ (isUrl clip = true → sliceDoc doc f t = [] →
      pasteHandler clip doc f t =
        { newDoc := doc.take f ++ clip ++ doc.drop t
          anchor := some (f + clip.length)
          prevented := true })
    ∧ (isUrl clip = false →
      pasteHandler clip doc f t = { newDoc := doc, anchor := none, prevented := false }) := by
  refine ⟨?_, ?_, ?_⟩
  · intro hu hs
    unfold pasteHandler
    rw [if_pos hu]
    simp only [if_neg hs]
  · intro hu hs
    unfold pasteHandler
    rw [if_pos hu]
    simp only [if_pos hs]
  · intro hu
    unfold pasteHandler
    rw [if_neg (by simp [hu])]

/-- Witness for C7: wrap a selection, paste a bare URL, and a non-URL
payload, each at concrete inputs. -/
theorem c7_paste_transformer_witness :
    pasteHandler "https://example.com".data "foo".data 0 3 =
      { newDoc := "[foo](https://example.com)".data
        anchor := some 26
        prevented := true }
    ∧ pasteHandler "https://example.com".data "foo".data 1 1 =
      { newDoc := "fhttps://example.comoo".data
        anchor := some 20
        prevented := true }
    ∧ pasteHandler "hello".data "foo".data 0 3 =
      { newDoc := "foo".data, anchor := none, prevented := false } :=
  ⟨(c7_paste_transformer "https://example.com".data "foo".data 0 3).1
      (by decide) (by decide),
   (c7_paste_transformer "https://example.com".data "foo".data 1 1).2.1
      (by decide) (by decide),
   (c7_paste_transformer "hello".data "foo".data 0 3).2.2 (by decide)⟩

/-- C8: when the two characters right after the matched span are exactly
`]]`, applying a link-inserting completion and then re-applying the same one
over the inserted reference (cursor before its closing `]]`) leaves the
document unchanged, and the `]` count across the inserted reference stays 2:
closing brackets are consumed, never duplicated. -/
theorem c8_bracket_idempotent (doc body : Doc) (f t : Nat)
    (hbr : sliceDoc doc t (t + 2) = "]]".data)
    (hf : f ≤ t)
    (hb : ']' ∉ body) :
    ((linkApply ("[[".data ++ body ++ "]]".data)
        ((linkApply ("[[".data ++ body ++ "]]".data) doc f t).newDoc)
        f (f + ("[[".data ++ body ++ "]]".data).length - 2)).newDoc
      = (linkApply ("[[".data ++ body ++ "]]".data) doc f t).newDoc)
    ∧ (sliceDoc (linkApply ("[[".data ++ body ++ "]]".data) doc f t).newDoc
        f (f + ("[[".data ++ body ++ "]]".data).length)).count ']' = 2 := by
  have hlen2 : ("]]".data : Doc).length = 2 := by decide
  have h2 : t + 2 ≤ doc.length := by
    have hl := congrArg List.length hbr
    simp only [sliceDoc, List.length_take, List.length_drop, hlen2] at hl
    omega
  have hfd : f ≤ doc.length := by omega
  have hre : replaceEnd doc t = t + 2 := by
    unfold replaceEnd
    rw [if_pos hbr]
  set ins : Doc := "[[".data ++ body ++ "]]".data with hins
  have hL : ins.length = body.length + 4 := by
    rw [hins]
    simp only [List.length_append]
    have ha : ("[[".data : Doc).length = 2 := by decide
    rw [ha, hlen2]
    omega
  have hdoc1 : (linkApply ins doc f t).newDoc = doc.take f ++ ins ++ doc.drop (t + 2) := by
    unfold linkApply
    rw [hre]
  set doc1 : Doc := doc.take f ++ ins ++ doc.drop (t + 2) with hd1
  have htakef : (doc.take f).length = f := by
    rw [List.length_take]
    omega
  have hdropf : doc1.drop f = ins ++ doc.drop (t + 2) := by
    rw [hd1, List.append_assoc]
    exact List.drop_left' htakef
  have htake1 : doc1.take f = doc.take f := by
    rw [hd1, List.append_assoc]
    exact List.take_left' htakef
  have hdropfl : doc1.drop (f + ins.length) = doc.drop (t + 2) := by
    rw [hd1]
    refine List.drop_left' ?_
    rw [List.length_append, htakef]
  have hA : doc1 = (doc.take f ++ "[[".data ++ body) ++ ("]]".data ++ doc.drop (t + 2)) := by
    rw [hd1, hins]
    simp [List.append_assoc]
  have hAlen : (doc.take f ++ "[[".data ++ body).length = f + ins.length - 2 := by
    simp only [List.length_append, htakef]
    have ha : ("[[".data : Doc).length = 2 := by decide
    rw [ha]
    omega
  have hmid : doc1.drop (f + ins.length - 2) = "]]".data ++ doc.drop (t + 2) := by
    rw [hA]
    exact List.drop_left' hAlen
  have hsl : sliceDoc doc1 (f + ins.length - 2) (f + ins.length - 2 + 2) = "]]".data := by
    unfold sliceDoc
    rw [hmid]
    have harith : f + ins.length - 2 + 2 - (f + ins.length - 2) = 2 := by omega
    rw [harith, ← hlen2]
    exact List.take_left _ _
  have hre1 : replaceEnd doc1 (f + ins.length - 2) = f + ins.length := by
    unfold replaceEnd
    rw [if_pos hsl]
    omega
  constructor
  · rw [hdoc1]
    unfold linkApply
    rw [hre1, htake1, hdropfl, hd1]
  · rw [hdoc1]
    unfold sliceDoc
    rw [hdropf]
    have harith : f + ins.length - f = ins.length := by omega
    rw [harith, List.take_left ins (doc.drop (t + 2)), hins]
    have hsplit : ("[[".data ++ body ++ "]]".data : Doc).count ']'
        = ("[[".data : Doc).count ']' + body.count ']' + ("]]".data : Doc).count ']' := by
      simp [List.count_append]
    rw [hsplit]
    have hcb : body.count ']' = 0 := List.count_eq_zero.mpr hb
    rw [hcb]
    decide

/-- Witness for C8 at a concrete already-closed context. -/
theorem c8_bracket_idempotent_witness :
    ((linkApply ("[[".data ++ "ab".data ++ "]]".data)
        ((linkApply ("[[".data ++ "ab".data ++ "]]".data) "xy]]z".data 1 2).newDoc)
        1 (1 + ("[[".data ++ "ab".data ++ "]]".data).length - 2)).newDoc
      = (linkApply ("[[".data ++ "ab".data ++ "]]".data) "xy]]z".data 1 2).newDoc)
    ∧ (sliceDoc (linkApply ("[[".data ++ "ab".data ++ "]]".data) "xy]]z".data 1 2).newDoc
        1 (1 + ("[[".data ++ "ab".data ++ "]]".data).length)).count ']' = 2 :=
  c8_bracket_idempotent "xy]]z".data "ab".data 1 2 (by decide) (by decide) (by decide)

/-- C9: the anchor offset of every result of the three providers is at most
the cursor offset of the triggering context. -/
theorem c9_anchor_le_cursor (parse : Doc → Option JsDate) (fmtDate fmtDist : Doc → Doc)
    (tags : List Doc) (searchNotes : Doc → List (Doc × Note)) (pfContent : Doc → Doc)
    (doc : Doc) (pos : Nat) :
    (∀ r, dateCompletion parse fmtDate fmtDist doc pos = some r → r.resFrom ≤ pos)
    ∧ (∀ r, noteCompletion searchNotes pfContent doc pos = some r → r.resFrom ≤ pos)
    ∧ (∀ r, tagCompletion tags doc pos = some r → r.resFrom ≤ pos) := by
  refine ⟨?_, ?_, ?_⟩
  · intro r hr
    unfold dateCompletion at hr
    split at hr
    · simp at hr
    · rename_i wfrom wtext heq
      have hle := (matchBefore_eq_some heq).2.2
      by_cases hq : stripLeadingBrackets wtext = []
      · simp [hq] at hr
      · cases hp : parse (stripLeadingBrackets wtext) with
        | none => simp [hq, hp] at hr
        | some d =>
          simp only [if_neg hq, hp] at hr
          cases hr
          exact hle
  · intro r hr
    unfold noteCompletion at hr
    split at hr
    · simp at hr
    · rename_i wfrom wtext heq
      have hle := (matchBefore_eq_some heq).2.2
      simp only [] at hr
      cases hr
      exact hle
  · intro r hr
    unfold tagCompletion at hr
    split at hr
    · simp at hr
    · rename_i wfrom wtext heq
      have hmb := matchBefore_eq_some heq
      have hne : wtext ≠ [] := by
        intro hnil
        have := hmb.2.1
        rw [hnil] at this
        simp [tagPred] at this
      have hlt := matchBefore_lt_of_ne_nil heq hne
      cases hr
      show wfrom + 1 ≤ pos
      omega

/-- Witness for C9: a concrete tag result whose anchor is below the cursor. -/
theorem c9_anchor_le_cursor_witness :
    ({ resFrom := 3
       options := [{ label := "pro".data, detail := none, apply := none }]
       filter := none } : CompletionResult).resFrom ≤ 5 :=
  (c9_anchor_le_cursor (fun _ => none) (fun s => s) (fun s => s) ["pro".data]
      (fun _ => []) (fun s => s) "a #pr".data 5).2.2
    { resFrom := 3
      options := [{ label := "pro".data, detail := none, apply := none }]
      filter := none }
    (by rfl)
